import Mathlib

/-!
Verification of the LEMONS `CrowdMechanics` mechanical layer against its
specification.  The repository ships the public header
(`src/mechanical_layer/include/CrowdMechanics.h`), the user documentation
(`docs/source/tutorials_tests_mechanical_layer.rst`) and the test driver,
but the `.cpp` implementation files of the mechanical layer are not part of
the sources available here.  Definitions that embed the missing
implementation are therefore modelled from the specification text and say
so in their doc comments; the header and the documentation are embedded
directly where they decide a claim.
-/

namespace CrowdMech

/-! ## C linkage declaration (from `CrowdMechanics.h`, lines 36-40)

The header declares, inside an `extern "C"` block:
`int CrowdMechanics(char** files);` -/

/-- A C type, as far as the entry-point signature needs. -/
inductive CType where
  | int : CType
  | char : CType
  | ptr : CType → CType
deriving DecidableEq, Repr

/-- Whether a C type is an integral (count-like) type. A bare pointer
array parameter offers no in-band length information exactly when no
parameter has such a type. -/
def CType.isIntegral : CType → Bool
  | .int => true
  | .char => true
  | .ptr _ => false

/-- Linkage of an external declaration. -/
inductive Linkage where
  | c : Linkage
  | cpp : Linkage
deriving DecidableEq, Repr

/-- An external function declaration: linkage, return type, parameters. -/
structure ExternDecl where
  linkage : Linkage
  ret : CType
  params : List CType
deriving DecidableEq, Repr

/-- The declaration of the public entry point, transcribed from
`src/src/mechanical_layer/include/CrowdMechanics.h` lines 36-40:
`extern "C" { int CrowdMechanics(char** files); }`. -/
def crowdMechanicsDecl : ExternDecl :=
  { linkage := .c, ret := .int, params := [CType.ptr (CType.ptr CType.char)] }

end CrowdMech

namespace CrowdMech

/-! ## Contact keys and the contact book (spec §3, §4.5)

Modelled from the spec: the contact-book implementation is not among the
available sources.  A record keeps the accumulated tangential relative
displacement and an `alive` flag that `sweep` consults at the end of a
coarse step. -/

/-- Key of a persistent contact (spec §3): agent-agent keys carry the two
agent indices (`i < j` by construction of the broad phase) and the two
shape indices; agent-wall keys carry the agent index, shape index, wall id
and corner id. -/
inductive ContactKey where
  | agentAgent (i j sA sB : ℕ) : ContactKey
  | agentWall (i s wallId cornerId : ℕ) : ContactKey
deriving DecidableEq, Repr

/-- An agent-agent key respects the `i < j` ordering invariant of spec §3;
agent-wall keys are unconstrained. -/
def ContactKey.wellFormed : ContactKey → Prop
  | .agentAgent i j _ _ => i < j
  | .agentWall _ _ _ _ => True

instance : DecidablePred ContactKey.wellFormed := by
  intro k; cases k <;> simp [ContactKey.wellFormed] <;> infer_instance

/-- A contact-book entry: the stored value (tangential state) and the
alive flag set by `mark_alive` since the last coarse-step boundary. -/
structure BookEntry (V : Type) where
  val : V
  alive : Bool
deriving DecidableEq, Repr

/-- The contact book: an association list from keys to entries,
iterated in insertion order. -/
abbrev Book (V : Type) : Type := List (ContactKey × BookEntry V)

/-- The keys currently present in the book. -/
def Book.keys {V : Type} (b : Book V) : List ContactKey := b.map Prod.fst

/-- Modelled from the spec (§4.5): `get_or_create(key)` returns the stored
record if the key is present, else a record with zero-initialized
tangential displacement, inserting it.  Returns the value together with
the updated book. -/
def Book.getOrCreate {V : Type} (zero : V) (k : ContactKey) :
    Book V → V × Book V
  | [] => (zero, [(k, ⟨zero, false⟩)])
  | (k', e) :: rest =>
      if k' = k then (e.val, (k', e) :: rest)
      else
        let r := Book.getOrCreate zero k rest
        (r.1, (k', e) :: r.2)

/-- Modelled from the spec (§4.5): `mark_alive(key)` flags the record for
`key` as touched during the current coarse step. -/
def Book.markAlive {V : Type} (k : ContactKey) : Book V → Book V
  | [] => []
  | (k', e) :: rest =>
      if k' = k then (k', ⟨e.val, true⟩) :: rest
      else (k', e) :: Book.markAlive k rest

/-- Modelled from the spec (§4.5): `sweep()`, run at the end of a coarse
step, removes the records not marked alive since the previous coarse-step
boundary and resets the flags of the survivors. -/
def Book.sweep {V : Type} (b : Book V) : Book V :=
  (b.filter fun p => p.2.alive).map fun p => (p.1, ⟨p.2.val, false⟩)

/-- Whether `key` has been marked alive in the current coarse step. -/
def Book.isAlive {V : Type} (k : ContactKey) (b : Book V) : Bool :=
  b.any fun p => p.1 = k && p.2.alive

/-- Update the stored value for a key (used by the force model when it
writes back the rescaled tangential displacement). -/
def Book.setVal {V : Type} (k : ContactKey) (v : V) : Book V → Book V
  | [] => []
  | (k', e) :: rest =>
      if k' = k then (k', ⟨v, e.alive⟩) :: rest
      else (k', e) :: Book.setVal k v rest

/-! ## Geometry primitives (spec §4.1)

Modelled from the spec: the geometry sources of the mechanical layer are
not available; vectors, rotation and the disk queries follow §4.1. -/

/-- A 2D vector over the reals (doubles in the C++ layer), as a pair so
that the componentwise additive-group and scalar-action structure is the
standard product one. -/
abbrev Vec2 : Type := ℝ × ℝ

/-- Dot product. -/
noncomputable def vdot (v w : Vec2) : ℝ := v.1 * w.1 + v.2 * w.2

/-- Euclidean norm. -/
noncomputable def vnorm (v : Vec2) : ℝ := Real.sqrt (vdot v v)

/-- 2D scalar cross product. -/
noncomputable def vcross (v w : Vec2) : ℝ := v.1 * w.2 - v.2 * w.1

/-- Counterclockwise rotation of `v` by angle `θ`. -/
noncomputable def vrot (θ : ℝ) (v : Vec2) : Vec2 :=
  ⟨Real.cos θ * v.1 - Real.sin θ * v.2, Real.sin θ * v.1 + Real.cos θ * v.2⟩

/-- Counterclockwise perpendicular; `ω × r` in 2D is `ω • perp r`. -/
noncomputable def vperp (v : Vec2) : Vec2 := ⟨-v.2, v.1⟩

/-! ## Force model for one contact (spec §4.6)

Modelled from the spec: the force-model sources of the mechanical layer
are not available; every formula below transcribes §4.6. -/

/-- Contact parameters of a material pair: normal damping, tangential
damping, kinetic friction. -/
structure ContactProps where
  gammaN : ℝ
  gammaT : ℝ
  mu : ℝ

/-- All inputs of the force model for one active contact: effective
stiffnesses, material pair parameters, penetration, unit contact normal
(from A toward B), relative velocity of the contact points, stored
tangential relative displacement, and the mechanical sub-step. -/
structure ForceInputs where
  kn : ℝ
  kt : ℝ
  cp : ContactProps
  delta : ℝ
  n : Vec2
  urel : Vec2
  xi : Vec2
  dtm : ℝ

/-- Normal component of the relative velocity, `u_rel · n`. -/
noncomputable def normalSpeed (fi : ForceInputs) : ℝ := vdot fi.urel fi.n

/-- Tangential part of the relative velocity, `u_rel − (u_rel·n) n`. -/
noncomputable def tangVel (fi : ForceInputs) : Vec2 :=
  fi.urel - normalSpeed fi • fi.n

/-- Scalar normal force before the non-attraction clamp:
`−k_n δ − Γn (u_rel·n)` (the coefficient of `n` in `F_n^A`). -/
noncomputable def fnScalar (fi : ForceInputs) : ℝ :=
  -(fi.kn * fi.delta) - fi.cp.gammaN * normalSpeed fi

/-- Normal force on participant A, clamped to be non-attractive: if the
scalar projected on `n` is positive (pull), the force is zero. -/
noncomputable def fnForce (fi : ForceInputs) : Vec2 :=
  if 0 < fnScalar fi then 0 else fnScalar fi • fi.n

/-- Tangential displacement after the incremental update `ξ + u_t·dt_m`. -/
noncomputable def xiStep (fi : ForceInputs) : Vec2 := fi.xi + fi.dtm • tangVel fi

/-- Updated displacement with the component along `n` projected out. -/
noncomputable def xiProj (fi : ForceInputs) : Vec2 :=
  xiStep fi - (vdot (xiStep fi) fi.n) • fi.n

/-- Trial tangential force `F_t^* = −k_t ξ − Γt u_t`. -/
noncomputable def ftTrial (fi : ForceInputs) : Vec2 :=
  (-fi.kt) • xiProj fi - fi.cp.gammaT • tangVel fi

/-- Applied tangential force after the Coulomb cap: if
`|F_t^*| > μ |F_n^A|`, the force is `−μ |F_n^A| · (F_t^*/|F_t^*|)`,
otherwise the trial force unchanged. -/
noncomputable def ftForce (fi : ForceInputs) : Vec2 :=
  if fi.cp.mu * vnorm (fnForce fi) < vnorm (ftTrial fi) then
    (-(fi.cp.mu * vnorm (fnForce fi))) • ((vnorm (ftTrial fi))⁻¹ • ftTrial fi)
  else ftTrial fi

/-- Stored tangential displacement after the contact: rescaled to
`−F_t^A / k_t` when the cap fired, else the projected update. -/
noncomputable def xiOut (fi : ForceInputs) : Vec2 :=
  if fi.cp.mu * vnorm (fnForce fi) < vnorm (ftTrial fi) then
    (-fi.kt⁻¹) • ftForce fi
  else xiProj fi

/-- Total contact force applied to participant A. -/
noncomputable def forceOnA (fi : ForceInputs) : Vec2 := fnForce fi + ftForce fi

/-- Total contact force applied to participant B: the spec applies
`−F_n^A` and `−F_t^A` separately on B. -/
noncomputable def forceOnB (fi : ForceInputs) : Vec2 := -fnForce fi + -ftForce fi

/-- Effective contact length: harmonic mean of the two radii (spec §4.6). -/
noncomputable def effLength (r1 r2 : ℝ) : ℝ := 2 * r1 * r2 / (r1 + r2)

/-- Effective normal stiffness `k_n = E_A E_B/(E_A+E_B) · L_eff`. -/
noncomputable def stiffN (e1 e2 leff : ℝ) : ℝ := e1 * e2 / (e1 + e2) * leff

/-- Effective tangential stiffness `k_t = G_A G_B/(G_A+G_B) · L_eff`. -/
noncomputable def stiffT (g1 g2 leff : ℝ) : ℝ := g1 * g2 / (g1 + g2) * leff

/-! ## World state and two-scale integrator (spec §3, §4.3, §4.4, §4.7)

Modelled from the spec: the `Crowd`/`InputStatic` implementation files are
not available.  The broad phase is modelled by enumerating every
lexicographically ordered candidate pair directly; the uniform grid of
§4.4 is an acceleration structure whose cell-size invariant
(`h ≥ 2 r_max`) makes it produce exactly these overlapping pairs. -/

/-- A disk shape in its agent's local frame. -/
structure PhysShape where
  offset : Vec2
  radius : ℝ
  mat : String

/-- An agent: identity, inertial data, damping rates (the XML
`FloorDamping`/`AngularDamping` attributes are the inverse relaxation
times `1/τ`), its five shapes, kinematic state and driving terms. -/
structure AgentPhys where
  id : ℕ
  mass : ℝ
  inertia : ℝ
  invTauT : ℝ
  invTauR : ℝ
  shapes : List PhysShape
  pos : Vec2
  vel : Vec2
  theta : ℝ
  omega : ℝ
  fp : Vec2
  mp : ℝ

/-- A wall: id, material and the ordered corner list; segment `k` joins
corner `k` to corner `k+1`. -/
structure WallPhys where
  id : ℕ
  mat : String
  corners : List Vec2

/-- The material registry interface of spec §4.2: intrinsic modulus
lookups and the commutative binary contact lookup, with the default
fallbacks already folded in. -/
structure MatRegistry where
  intrinsicE : String → ℝ
  intrinsicG : String → ℝ
  contact : String → String → ContactProps

/-- The world: agents (kept in ascending-id order), static walls, the
frozen registry and the persistent contact book. -/
structure World where
  agents : List AgentPhys
  walls : List WallPhys
  reg : MatRegistry
  book : Book Vec2

/-- World-space center of shape `s` of an agent with pose `(x, θ)`:
`x + R(θ) · p_local(s)`. -/
noncomputable def shapeCenter (a : AgentPhys) (s : PhysShape) : Vec2 :=
  a.pos + vrot a.theta s.offset

/-- Velocity of the world point `p` carried by agent `a`:
`v + ω · perp (p − x)`. -/
noncomputable def pointVel (a : AgentPhys) (p : Vec2) : Vec2 :=
  a.vel + a.omega • vperp (p - a.pos)

/-- Closest point on segment `AB` to `P`: clamp the projection parameter
to `[0,1]` (spec §4.1). -/
noncomputable def closestOnSegment (a b p : Vec2) : Vec2 :=
  let d := b - a
  let len2 := vdot d d
  if len2 = 0 then a
  else
    let t := max 0 (min 1 (vdot (p - a) d / len2))
    a + t • d

/-- Contact normal with the zero-distance tie-break `n = (1,0)`. -/
noncomputable def unitFromTo (c1 c2 : Vec2) : Vec2 :=
  let d := vnorm (c2 - c1)
  if d = 0 then ⟨1, 0⟩ else d⁻¹ • (c2 - c1)

/-- A processed contact: participants, force applied to the first
participant (the second receives its negation for agent–agent contacts;
walls receive nothing), torques, the per-contact normal and tangential
forces and the new stored displacement. -/
structure ContactEvent where
  key : ContactKey
  idxA : ℕ
  idxB : ℕ
  isWall : Bool
  fA : Vec2
  torqueA : ℝ
  torqueB : ℝ
  fn : Vec2
  ft : Vec2
  xiNew : Vec2

/-- Shared narrow-phase work once a contact `(δ, n)` with contact point
`p` is established: reads the stored `ξ`, evaluates the force model,
writes back the rescaled displacement marking the record alive, and
accumulates the torque of each participant about its center of mass,
`(p − x_i) × F` (spec §4.6), where `xA`/`xB` are the centers of mass of
the two participating agents. -/
noncomputable def mkEvent (key : ContactKey) (idxA idxB : ℕ) (isWall : Bool)
    (kn kt : ℝ) (cp : ContactProps) (delta : ℝ) (n urel : Vec2)
    (p xA xB : Vec2) (dtm : ℝ) (book : Book Vec2) :
    ContactEvent × Book Vec2 :=
  let r := Book.getOrCreate (0 : Vec2) key book
  let fi : ForceInputs :=
    { kn := kn, kt := kt, cp := cp, delta := delta, n := n,
      urel := urel, xi := r.1, dtm := dtm }
  let f := forceOnA fi
  let ev : ContactEvent :=
    { key := key, idxA := idxA, idxB := idxB, isWall := isWall, fA := f,
      torqueA := vcross (p - xA) f, torqueB := vcross (p - xB) (-f),
      fn := fnForce fi, ft := ftForce fi, xiNew := xiOut fi }
  (ev, Book.setVal key (xiOut fi) (Book.markAlive key r.2))

/-- Narrow phase for one agent-agent candidate `(i, j, sA, sB)`: disk-disk
overlap test `d < r_A + r_B`, penetration `δ = r_A + r_B − d`, normal from
A toward B; the contact point is taken on the line of centers at radius
`r_A` from A. -/
noncomputable def processPair (w : World) (dtm : ℝ) (book : Book Vec2)
    (i j sA sB : ℕ) : Option ContactEvent × Book Vec2 :=
  match w.agents[i]?, w.agents[j]? with
  | some a, some b =>
      match a.shapes[sA]?, b.shapes[sB]? with
      | some shA, some shB =>
          let cA := shapeCenter a shA
          let cB := shapeCenter b shB
          let d := vnorm (cB - cA)
          if d < shA.radius + shB.radius then
            let delta := shA.radius + shB.radius - d
            let n := unitFromTo cA cB
            let p := cA + shA.radius • n
            let urel := pointVel b p - pointVel a p
            let leff := effLength shA.radius shB.radius
            let kn := stiffN (w.reg.intrinsicE shA.mat) (w.reg.intrinsicE shB.mat) leff
            let kt := stiffT (w.reg.intrinsicG shA.mat) (w.reg.intrinsicG shB.mat) leff
            let cp := w.reg.contact shA.mat shB.mat
            let r := mkEvent (ContactKey.agentAgent i j sA sB) i j false
              kn kt cp delta n urel p a.pos b.pos dtm book
            (some r.1, r.2)
          else (none, book)
      | _, _ => (none, book)
  | _, _ => (none, book)

/-- Narrow phase for one agent-wall candidate `(i, s, wi, c)`: disk
against the segment joining corner `c` to corner `c+1`; the wall side has
zero velocity and only the agent receives force and torque. -/
noncomputable def processWall (w : World) (dtm : ℝ) (book : Book Vec2)
    (i s wi c : ℕ) : Option ContactEvent × Book Vec2 :=
  match w.agents[i]?, w.walls[wi]? with
  | some a, some wall =>
      match a.shapes[s]?, wall.corners[c]?, wall.corners[c + 1]? with
      | some sh, some p1, some p2 =>
          let cen := shapeCenter a sh
          let q := closestOnSegment p1 p2 cen
          let d := vnorm (cen - q)
          if d < sh.radius then
            let delta := sh.radius - d
            let n := unitFromTo q cen
            let p := q
            let urel := (0 : Vec2) - pointVel a p
            let leff := sh.radius
            let kn := stiffN (w.reg.intrinsicE sh.mat) (w.reg.intrinsicE wall.mat) leff
            let kt := stiffT (w.reg.intrinsicG sh.mat) (w.reg.intrinsicG wall.mat) leff
            let cp := w.reg.contact sh.mat wall.mat
            let r := mkEvent (ContactKey.agentWall i s wall.id c) i i true
              kn kt cp delta n urel p a.pos a.pos dtm book
            (some r.1, r.2)
          else (none, book)
      | _, _, _ => (none, book)
  | _, _ => (none, book)

/-- Number of shapes of agent `i` (0 when out of range). -/
def numShapes (w : World) (i : ℕ) : ℕ :=
  match w.agents[i]? with
  | some a => a.shapes.length
  | none => 0

/-- Number of segments of wall `wi` (corners minus one). -/
def numSegs (w : World) (wi : ℕ) : ℕ :=
  match w.walls[wi]? with
  | some wall => wall.corners.length - 1
  | none => 0

/-- Agent-agent candidates in ascending lexicographic `(i, j, sA, sB)`
order, with `i < j` (agents do not self-collide; the pair is emitted once
with the smaller agent first, spec §4.4). -/
def agentPairsCand (w : World) : List (ℕ × ℕ × ℕ × ℕ) :=
  (List.range w.agents.length).flatMap fun i =>
    (List.range w.agents.length).flatMap fun j =>
      if i < j then
        (List.range (numShapes w i)).flatMap fun sA =>
          (List.range (numShapes w j)).map fun sB => (i, j, sA, sB)
      else []

/-- Agent-wall candidates in ascending lexicographic `(i, s, wi, c)`
order. -/
def wallCand (w : World) : List (ℕ × ℕ × ℕ × ℕ) :=
  (List.range w.agents.length).flatMap fun i =>
    (List.range (numShapes w i)).flatMap fun s =>
      (List.range w.walls.length).flatMap fun wi =>
        (List.range (numSegs w wi)).map fun c => (i, s, wi, c)

/-- Run the narrow phase and the force model over every candidate, in
order, threading the contact book; returns the processed events and the
updated book.  Positions read are those of `w`, the state at the start of
the sub-step. -/
noncomputable def runContacts (w : World) (dtm : ℝ) :
    List ContactEvent × Book Vec2 :=
  let step1 := (agentPairsCand w).foldl
    (fun acc q =>
      let r := processPair w dtm acc.2 q.1 q.2.1 q.2.2.1 q.2.2.2
      (acc.1 ++ r.1.toList, r.2))
    (([] : List ContactEvent), w.book)
  (wallCand w).foldl
    (fun acc q =>
      let r := processWall w dtm acc.2 q.1 q.2.1 q.2.2.1 q.2.2.2
      (acc.1 ++ r.1.toList, r.2))
    step1

/-- Total contact force accumulated on agent `i`: its own side of every
event where it is the first participant, the reaction `−F` where it is
the second participant of an agent-agent event (spec §4.6). -/
noncomputable def contactForceOn (evs : List ContactEvent) (i : ℕ) : Vec2 :=
  evs.foldl
    (fun acc ev =>
      let acc1 := if ev.idxA = i then acc + ev.fA else acc
      if ev.isWall = false ∧ ev.idxB = i then acc1 + -ev.fA else acc1)
    0

/-- Total contact torque accumulated on agent `i`. -/
noncomputable def contactTorqueOn (evs : List ContactEvent) (i : ℕ) : ℝ :=
  evs.foldl
    (fun acc ev =>
      let acc1 := if ev.idxA = i then acc + ev.torqueA else acc
      if ev.isWall = false ∧ ev.idxB = i then acc1 + ev.torqueB else acc1)
    0

/-- Linear acceleration of agent `a` (index `i`):
`a_i = F_p/m − v/τ_t + F_c/m` (spec §4.7 step 1). -/
noncomputable def accelOf (evs : List ContactEvent) (i : ℕ) (a : AgentPhys) :
    Vec2 :=
  a.mass⁻¹ • a.fp - a.invTauT • a.vel + a.mass⁻¹ • contactForceOn evs i

/-- Angular acceleration of agent `a` (index `i`):
`α_i = M_p/I − ω/τ_r + T_c/I` (spec §4.7 step 1). -/
noncomputable def angAccelOf (evs : List ContactEvent) (i : ℕ) (a : AgentPhys) :
    ℝ :=
  a.mp / a.inertia - a.invTauR * a.omega + contactTorqueOn evs i / a.inertia

/-- Semi-implicit (symplectic Euler) update of one agent: velocities
first, then positions with the already-updated velocities (spec §4.7
step 3). -/
noncomputable def integrateAgent (dtm : ℝ) (acc : Vec2) (aacc : ℝ)
    (a : AgentPhys) : AgentPhys :=
  let v := a.vel + dtm • acc
  let om := a.omega + dtm * aacc
  { a with vel := v, omega := om,
           pos := a.pos + dtm • v, theta := a.theta + dtm * om }

/-- One mechanical sub-step: contact forces are computed first from the
state at the start of the sub-step, then every agent is advanced by the
symplectic-Euler rule; the book carries the updated tangential state. -/
noncomputable def substep (dtm : ℝ) (w : World) : World :=
  let r := runContacts w dtm
  { w with
    agents := w.agents.mapIdx fun i a =>
      integrateAgent dtm (accelOf r.1 i a) (angAccelOf r.1 i a) a,
    book := r.2 }

/-- Number of sub-steps of one coarse step: `N = round(dt/dt_m)`
(spec §4.7). -/
noncomputable def numSubSteps (dt dtm : ℝ) : ℕ := (round (dt / dtm)).toNat

/-- Modelled from the spec (§4.7 and §9, adopting the one-call-per-coarse
step reading of `TimeStep`): one public call advances the state by one
coarse step, performing `N` sub-steps of size `dt_m`; the effectively
simulated span is `N·dt_m`. -/
noncomputable def coarseStep (dt dtm : ℝ) (w : World) : World :=
  (substep dtm)^[numSubSteps dt dtm] w

/-- Effective coarse step actually simulated, `N · dt_m`. -/
noncomputable def effectiveDt (dt dtm : ℝ) : ℝ := (numSubSteps dt dtm : ℝ) * dtm

/-- Modelled from the spec (§4.3): the loader keeps agents in a dense
array in ascending id order; sorting by id fixes the deterministic
iteration order. -/
def loadAgents (l : List AgentPhys) : List AgentPhys :=
  l.mergeSort fun a b => a.id ≤ b.id

/-- Modelled from the spec (§6): one run of the engine on fully parsed
inputs: sort the agents, then advance one coarse step. -/
noncomputable def runModel (dt dtm : ℝ) (agents : List AgentPhys)
    (walls : List WallPhys) (reg : MatRegistry) (book0 : Book Vec2) : World :=
  coarseStep dt dtm
    { agents := loadAgents agents, walls := walls, reg := reg, book := book0 }

/-- Strict lexicographic order on candidate quadruples. -/
def quadLt (p q : ℕ × ℕ × ℕ × ℕ) : Prop :=
  p.1 < q.1 ∨ (p.1 = q.1 ∧ (p.2.1 < q.2.1 ∨ (p.2.1 = q.2.1 ∧
    (p.2.2.1 < q.2.2.1 ∨ (p.2.2.1 = q.2.2.1 ∧ p.2.2.2 < q.2.2.2)))))

/-! ## Concrete sample data used to instantiate hypotheses -/

/-- A concrete force-model input. -/
noncomputable def fiSample : ForceInputs :=
  { kn := 1, kt := 1, cp := { gammaN := 1, gammaT := 1, mu := 1 / 2 },
    delta := 1, n := ((1 : ℝ), (0 : ℝ)), urel := ((0 : ℝ), (1 : ℝ)),
    xi := ((0 : ℝ), (0 : ℝ)), dtm := 1 }

/-- A concrete agent-agent contact event between agents `0` and `1`. -/
noncomputable def evSample : ContactEvent :=
  { key := ContactKey.agentAgent 0 1 0 0, idxA := 0, idxB := 1,
    isWall := false, fA := ((1 : ℝ), (0 : ℝ)), torqueA := 0, torqueB := 0,
    fn := ((1 : ℝ), (0 : ℝ)), ft := ((0 : ℝ), (0 : ℝ)),
    xiNew := ((0 : ℝ), (0 : ℝ)) }

/-- A concrete final contact book over rational payloads. -/
def bookSampleQ : Book ℚ :=
  [(ContactKey.agentAgent 0 1 2 3, ⟨5, true⟩),
   (ContactKey.agentWall 1 0 0 0, ⟨2, false⟩)]

/-- A concrete agent. -/
noncomputable def agentSample : AgentPhys :=
  { id := 0, mass := 1, inertia := 1, invTauT := 1 / 2, invTauR := 1 / 2,
    shapes := [{ offset := ((0 : ℝ), (0 : ℝ)), radius := 1 / 10,
                 mat := "human_naked" }],
    pos := ((5 : ℝ), (2 : ℝ)), vel := ((1 : ℝ), (0 : ℝ)),
    theta := 0, omega := 0, fp := ((0 : ℝ), (0 : ℝ)), mp := 0 }

/-- A concrete one-agent world with no walls. -/
noncomputable def worldSample : World :=
  { agents := [agentSample],
    walls := [],
    reg := { intrinsicE := fun _ => 1, intrinsicG := fun _ => 1,
             contact := fun _ _ => { gammaN := 1, gammaT := 1, mu := 1 / 2 } },
    book := [] }

/-! ## Configuration loading, validation and the entry point (spec §6, §7)

Modelled from the spec: the XML loaders (`InputStatic` etc.) are not among
the available sources.  Parsing-level failures (missing mandatory
attribute, malformed numeric value, I/O failure) precede the existence of
a configuration and are modelled as the `Except.error` case; numeric
attributes are decimal strings, embedded exactly as rationals. -/

/-- One `<Material>` entry of the Materials file. -/
structure MaterialDef where
  id : String
  youngModulus : ℚ
  shearModulus : ℚ
deriving DecidableEq, Repr

/-- One `<Contact>` entry of the Materials file. -/
structure ContactDef where
  id1 : String
  id2 : String
  gammaNormal : ℚ
  gammaTangential : ℚ
  kineticFriction : ℚ
deriving DecidableEq, Repr

/-- One `<Shape>` child of an agent. -/
structure ShapeCfg where
  radius : ℚ
  materialId : Option String
  posX : ℚ
  posY : ℚ
deriving DecidableEq, Repr

/-- One `<Agent>` entry of the Agents file. -/
structure AgentCfg where
  aid : String
  mass : ℚ
  momentOfInertia : ℚ
  floorDamping : Option ℚ
  angularDamping : Option ℚ
  shapes : List ShapeCfg
deriving DecidableEq, Repr

/-- One `<Wall>` entry of the Geometry file. -/
structure WallCfg where
  wid : ℕ
  materialId : Option String
  corners : List (ℚ × ℚ)
deriving DecidableEq, Repr

/-- The fully parsed configuration from the six input files. -/
structure Config where
  staticDir : String
  dynamicDir : String
  timeStep : ℚ
  timeStepMechanical : ℚ
  materials : List MaterialDef
  contacts : List ContactDef
  lx : ℚ
  ly : ℚ
  walls : List WallCfg
  agents : List AgentCfg
deriving DecidableEq, Repr

/-- A failure that precedes validation: I/O, a missing mandatory
attribute, or a malformed numeric value. -/
inductive LoadError where
  | ioFailure (path : String) : LoadError
  | missingAttribute (tag attr : String) : LoadError
  | malformedNumber (tag attr : String) : LoadError
deriving DecidableEq, Repr

/-- A config-validation failure (spec §7). -/
inductive ConfigError where
  | duplicateMaterials : ConfigError
  | duplicateAgents : ConfigError
  | duplicateWalls : ConfigError
  | badShapeCount (agentId : String) : ConfigError
  | wallTooFewCorners (wallId : ℕ) : ConfigError
  | nonPositiveMass (agentId : String) : ConfigError
  | nonPositiveInertia (agentId : String) : ConfigError
  | missingContactPair (id1 id2 : String) : ConfigError
deriving DecidableEq, Repr

/-- Whether the contact table holds the unordered pair `(a, b)`. -/
def hasPair (contacts : List ContactDef) (a b : String) : Bool :=
  contacts.any fun c => (c.id1 = a && c.id2 = b) || (c.id1 = b && c.id2 = a)

/-- Modelled from the spec (§7): every config check, run exhaustively
before any integration: duplicate ids, shape count ≠ 5, wall with fewer
than two corners, non-positive mass or inertia, missing material contact
pair. -/
def validateConfig (c : Config) : List ConfigError :=
  (if (c.materials.map fun m => m.id).Nodup then []
   else [ConfigError.duplicateMaterials]) ++
  (if (c.agents.map fun a => a.aid).Nodup then []
   else [ConfigError.duplicateAgents]) ++
  (if (c.walls.map fun w => w.wid).Nodup then []
   else [ConfigError.duplicateWalls]) ++
  (c.agents.filterMap fun a =>
    if a.shapes.length = 5 then none
    else some (ConfigError.badShapeCount a.aid)) ++
  (c.walls.filterMap fun w =>
    if 2 ≤ w.corners.length then none
    else some (ConfigError.wallTooFewCorners w.wid)) ++
  (c.agents.filterMap fun a =>
    if 0 < a.mass then none else some (ConfigError.nonPositiveMass a.aid)) ++
  (c.agents.filterMap fun a =>
    if 0 < a.momentOfInertia then none
    else some (ConfigError.nonPositiveInertia a.aid)) ++
  (c.materials.flatMap fun m1 => c.materials.filterMap fun m2 =>
    if hasPair c.contacts m1.id m2.id then none
    else some (ConfigError.missingContactPair m1.id m2.id))

/-- All invariants the validator enforces, as one predicate. -/
def goodConfig (c : Config) : Prop :=
  (c.materials.map fun m => m.id).Nodup ∧
  (c.agents.map fun a => a.aid).Nodup ∧
  (c.walls.map fun w => w.wid).Nodup ∧
  (∀ a ∈ c.agents, a.shapes.length = 5) ∧
  (∀ w ∈ c.walls, 2 ≤ w.corners.length) ∧
  (∀ a ∈ c.agents, 0 < a.mass) ∧
  (∀ a ∈ c.agents, 0 < a.momentOfInertia) ∧
  (∀ m1 ∈ c.materials, ∀ m2 ∈ c.materials,
    hasPair c.contacts m1.id m2.id = true)

/-- Observable outcome of one entry-point call: the returned status, the
validation failures reported, and whether integration was performed. -/
structure RunOutcome where
  status : ℤ
  errors : List ConfigError
  integrated : Bool
deriving DecidableEq, Repr

/-- Modelled from the spec (§6, §7): the entry point returns 0 on
success and non-zero on any load or validation failure; validation runs
exhaustively and integration begins only when it reports nothing. -/
def crowdMechanicsRun (input : Except LoadError Config) : RunOutcome :=
  match input with
  | Except.error _ => { status := 1, errors := [], integrated := false }
  | Except.ok cfg =>
      let errs := validateConfig cfg
      if errs.isEmpty then { status := 0, errors := [], integrated := true }
      else { status := 1, errors := errs, integrated := false }

/-! ## Agent Interactions output (spec §6)

Modelled from the spec: the output writer sources are not available.  The
writer emits agent-agent interaction records under the parent agent with
the smaller id; the flat record list below carries `(parent, child)` with
the nesting of the XML determined by the parent field. -/

/-- Fixed output filename, written in the current working directory. -/
def interactionsFileName : String := "AgentInteractions.xml"

/-- One agent-agent `<Interaction>` record of the output file. -/
structure PairRecord (V : Type) where
  parent : ℕ
  child : ℕ
  parentShape : ℕ
  childShape : ℕ
  payload : V

/-- The contact key a record stands for. -/
def PairRecord.asKey {V : Type} (r : PairRecord V) : ContactKey :=
  ContactKey.agentAgent r.parent r.child r.parentShape r.childShape

/-- Whether a key is an agent-agent key. -/
def isAgentAgentKey : ContactKey → Bool
  | ContactKey.agentAgent _ _ _ _ => true
  | ContactKey.agentWall _ _ _ _ => false

/-- The agent-agent records emitted from the final contact book, in book
order: one record per agent-agent key, parented at the first (smaller)
agent index of the key. -/
def interactionRecords {V : Type} : Book V → List (PairRecord V)
  | [] => []
  | (ContactKey.agentAgent i j sA sB, e) :: rest =>
      ⟨i, j, sA, sB, e.val⟩ :: interactionRecords rest
  | (ContactKey.agentWall _ _ _ _, _) :: rest => interactionRecords rest

/-- The Agent Interactions output: the fixed filename and the records. -/
def writeInteractions {V : Type} (b : Book V) : String × List (PairRecord V) :=
  (interactionsFileName, interactionRecords b)

end CrowdMech

namespace CrowdMech

/-! ## Theorems: contact book and declaration -/

/-- On a key that is absent, `get_or_create` hands back the zero record. -/
lemma Book.getOrCreate_fst_of_not_mem {V : Type} (zero : V) (k : ContactKey) :
    ∀ b : Book V, k ∉ b.keys → (Book.getOrCreate zero k b).1 = zero := by
  intro b
  induction b with
  | nil => intro _; rfl
  | cons p rest ih =>
      intro h
      obtain ⟨k', e⟩ := p
      simp only [Book.keys, List.map_cons, List.mem_cons] at h
      push_neg at h
      simp only [Book.getOrCreate]
      rw [if_neg (by exact fun hk => h.1 hk.symm)]
      exact ih (by simpa [Book.keys] using h.2)

/-- `get_or_create` never discards a key already in the book. -/
lemma Book.keys_subset_getOrCreate {V : Type} (zero : V) (k : ContactKey)
    (b : Book V) : ∀ k', k' ∈ b.keys → k' ∈ (Book.getOrCreate zero k b).2.keys := by
  induction b with
  | nil => intro k' h; simp [Book.keys] at h
  | cons p rest ih =>
      intro k' h
      obtain ⟨k0, e⟩ := p
      simp only [Book.keys, List.map_cons, List.mem_cons] at h
      simp only [Book.getOrCreate]
      by_cases hk : k0 = k
      · rw [if_pos hk]
        simpa [Book.keys] using h
      · rw [if_neg hk]
        rcases h with h | h
        · simp [Book.keys, h]
        · simp only [Book.keys, List.map_cons, List.mem_cons]
          exact Or.inr (ih k' h)

/-- `mark_alive` leaves the key list untouched. -/
lemma Book.keys_markAlive {V : Type} (k : ContactKey) :
    ∀ b : Book V, (Book.markAlive k b).keys = b.keys := by
  intro b
  induction b with
  | nil => rfl
  | cons p rest ih =>
      obtain ⟨k0, e⟩ := p
      by_cases hk : k0 = k
      · simp [Book.markAlive, hk, Book.keys]
      · simp only [Book.markAlive, hk, if_false, Book.keys, List.map_cons,
          List.cons.injEq, true_and]
        exact ih

/-- A key survives `sweep` exactly when some record for it is alive. -/
lemma Book.mem_keys_sweep {V : Type} (b : Book V) (k' : ContactKey) :
    k' ∈ (Book.sweep b).keys ↔ (k' ∈ b.keys ∧ Book.isAlive k' b = true) := by
  simp only [Book.sweep, Book.keys, Book.isAlive, List.map_map, List.mem_map,
    List.mem_filter, List.any_eq_true, Function.comp_def, Bool.and_eq_true,
    decide_eq_true_eq]
  constructor
  · rintro ⟨p, ⟨hp, hal⟩, rfl⟩
    exact ⟨⟨p, hp, rfl⟩, ⟨p, hp, rfl, hal⟩⟩
  · rintro ⟨_, ⟨p, hp, hk, hal⟩⟩
    exact ⟨p, ⟨hp, hal⟩, hk⟩

/-- C6: the contact book obeys the specified lifecycle: `get_or_create`
returns a zero-initialized record when the key is absent; neither
`get_or_create` nor `mark_alive` removes any record, so records persist
across all sub-steps of a coarse step; and `sweep`, run at the
coarse-step boundary, removes exactly the records not marked alive since
the previous boundary. -/
theorem contact_book_lifecycle {V : Type} (zero : V) (k : ContactKey)
    (b : Book V) (hk : k ∉ b.keys) :
    (Book.getOrCreate zero k b).1 = zero ∧
    (∀ k', k' ∈ b.keys → k' ∈ (Book.getOrCreate zero k b).2.keys) ∧
    (Book.markAlive k b).keys = b.keys ∧
    (∀ k', k' ∈ (Book.sweep b).keys ↔ (k' ∈ b.keys ∧ Book.isAlive k' b = true)) :=
  ⟨Book.getOrCreate_fst_of_not_mem zero k b hk,
   Book.keys_subset_getOrCreate zero k b,
   Book.keys_markAlive k b,
   fun k' => Book.mem_keys_sweep b k'⟩

/-- Witness for C6 at a concrete two-record book and an absent key. -/
theorem contact_book_lifecycle_witness :
    ((Book.getOrCreate (0 : ℚ) (ContactKey.agentWall 0 2 1 0)
        [(ContactKey.agentAgent 0 1 2 3, ⟨(5 : ℚ), true⟩),
         (ContactKey.agentAgent 0 2 0 0, ⟨(7 : ℚ), false⟩)]).1 = 0 ∧
     (∀ k', k' ∈ Book.keys (V := ℚ)
          [(ContactKey.agentAgent 0 1 2 3, ⟨(5 : ℚ), true⟩),
           (ContactKey.agentAgent 0 2 0 0, ⟨(7 : ℚ), false⟩)] →
        k' ∈ (Book.getOrCreate (0 : ℚ) (ContactKey.agentWall 0 2 1 0)
          [(ContactKey.agentAgent 0 1 2 3, ⟨(5 : ℚ), true⟩),
           (ContactKey.agentAgent 0 2 0 0, ⟨(7 : ℚ), false⟩)]).2.keys) ∧
     (Book.markAlive (ContactKey.agentWall 0 2 1 0)
        [(ContactKey.agentAgent 0 1 2 3, ⟨(5 : ℚ), true⟩),
         (ContactKey.agentAgent 0 2 0 0, ⟨(7 : ℚ), false⟩)]).keys =
       Book.keys [(ContactKey.agentAgent 0 1 2 3, ⟨(5 : ℚ), true⟩),
         (ContactKey.agentAgent 0 2 0 0, ⟨(7 : ℚ), false⟩)] ∧
     (∀ k', k' ∈ (Book.sweep
          [(ContactKey.agentAgent 0 1 2 3, ⟨(5 : ℚ), true⟩),
           (ContactKey.agentAgent 0 2 0 0, ⟨(7 : ℚ), false⟩)]).keys ↔
        (k' ∈ Book.keys (V := ℚ)
            [(ContactKey.agentAgent 0 1 2 3, ⟨(5 : ℚ), true⟩),
             (ContactKey.agentAgent 0 2 0 0, ⟨(7 : ℚ), false⟩)] ∧
          Book.isAlive k'
            [(ContactKey.agentAgent 0 1 2 3, ⟨(5 : ℚ), true⟩),
             (ContactKey.agentAgent 0 2 0 0, ⟨(7 : ℚ), false⟩)] = true))) :=
  contact_book_lifecycle (0 : ℚ) (ContactKey.agentWall 0 2 1 0)
    [(ContactKey.agentAgent 0 1 2 3, ⟨(5 : ℚ), true⟩),
     (ContactKey.agentAgent 0 2 0 0, ⟨(7 : ℚ), false⟩)] (by decide)

/-- C10: the public entry point is declared with C linkage and the exact
signature `int CrowdMechanics(char** files)`: its single parameter is a
bare `char**` with no accompanying count argument of integral type, so
the callee has no in-band way to learn the array length. -/
theorem crowdMechanics_decl_spec :
    crowdMechanicsDecl.linkage = Linkage.c ∧
    crowdMechanicsDecl.ret = CType.int ∧
    crowdMechanicsDecl.params = [CType.ptr (CType.ptr CType.char)] ∧
    crowdMechanicsDecl.params.length = 1 ∧
    ∀ p ∈ crowdMechanicsDecl.params, p.isIntegral = false := by
  refine ⟨rfl, rfl, rfl, rfl, ?_⟩
  intro p hp
  simp only [crowdMechanicsDecl, List.mem_singleton] at hp
  subst hp
  rfl

/-! ## Theorems: force model invariants -/

lemma vdot_self_nonneg (v : Vec2) : 0 ≤ vdot v v :=
  add_nonneg (mul_self_nonneg _) (mul_self_nonneg _)

lemma vnorm_nonneg (v : Vec2) : 0 ≤ vnorm v := Real.sqrt_nonneg _

lemma smul_fst (c : ℝ) (v : Vec2) : (c • v).1 = c * v.1 := rfl

lemma smul_snd (c : ℝ) (v : Vec2) : (c • v).2 = c * v.2 := rfl

lemma vnorm_smul (c : ℝ) (v : Vec2) : vnorm (c • v) = |c| * vnorm v := by
  unfold vnorm vdot
  rw [smul_fst, smul_snd]
  have h : c * v.1 * (c * v.1) + c * v.2 * (c * v.2) =
      c ^ 2 * (v.1 * v.1 + v.2 * v.2) := by ring
  rw [h, Real.sqrt_mul (sq_nonneg c), Real.sqrt_sq_eq_abs]

lemma vdot_smul_left (c : ℝ) (v w : Vec2) :
    vdot (c • v) w = c * vdot v w := by
  unfold vdot
  rw [smul_fst, smul_snd]
  ring

lemma vdot_zero_left (v : Vec2) : vdot 0 v = 0 := by
  unfold vdot
  simp

lemma vdot_neg_neg (v w : Vec2) : vdot (-v) (-w) = vdot v w := by
  unfold vdot
  simp

lemma vnorm_pos_of_lt {m : ℝ} {v : Vec2} (hm : 0 ≤ m) (h : m < vnorm v) :
    0 < vnorm v := lt_of_le_of_lt hm h

/-- C2: Coulomb cap.  Whenever the trial tangential force exceeds
`μ |F_n|` in magnitude, the applied tangential force has magnitude exactly
`μ |F_n|` and the stored displacement is rescaled to `−F_t/k_t`; otherwise
the trial force is applied unchanged.  In both cases
`|F_t| ≤ μ |F_n|` (so the claimed `|F_t| ≤ μ |F_n| + ε` holds for any
`ε ≥ 0`). -/
theorem coulomb_friction_cap (fi : ForceInputs) (hmu : 0 ≤ fi.cp.mu) :
    vnorm (ftForce fi) ≤ fi.cp.mu * vnorm (fnForce fi) ∧
    (fi.cp.mu * vnorm (fnForce fi) < vnorm (ftTrial fi) →
      vnorm (ftForce fi) = fi.cp.mu * vnorm (fnForce fi) ∧
      xiOut fi = (-fi.kt⁻¹) • ftForce fi) ∧
    (¬ fi.cp.mu * vnorm (fnForce fi) < vnorm (ftTrial fi) →
      ftForce fi = ftTrial fi ∧ xiOut fi = xiProj fi) := by
  have hM : 0 ≤ fi.cp.mu * vnorm (fnForce fi) :=
    mul_nonneg hmu (vnorm_nonneg _)
  by_cases h : fi.cp.mu * vnorm (fnForce fi) < vnorm (ftTrial fi)
  · have hT : 0 < vnorm (ftTrial fi) := vnorm_pos_of_lt hM h
    have hcap : vnorm (ftForce fi) = fi.cp.mu * vnorm (fnForce fi) := by
      unfold ftForce
      rw [if_pos h, vnorm_smul, vnorm_smul, abs_neg,
        abs_of_nonneg hM, abs_of_nonneg (le_of_lt (inv_pos.mpr hT))]
      field_simp
    refine ⟨le_of_eq hcap, fun _ => ⟨hcap, ?_⟩, fun hc => absurd h hc⟩
    unfold xiOut
    rw [if_pos h]
  · refine ⟨?_, fun hc => absurd hc h, fun _ => ⟨?_, ?_⟩⟩
    · unfold ftForce
      rw [if_neg h]
      exact le_of_not_lt h
    · unfold ftForce
      rw [if_neg h]
    · unfold xiOut
      rw [if_neg h]

/-- Witness for C2 at a concrete contact input with `μ = 1/2`. -/
theorem coulomb_friction_cap_witness :
    vnorm (ftForce fiSample) ≤ fiSample.cp.mu * vnorm (fnForce fiSample) ∧
    (fiSample.cp.mu * vnorm (fnForce fiSample) < vnorm (ftTrial fiSample) →
      vnorm (ftForce fiSample) = fiSample.cp.mu * vnorm (fnForce fiSample) ∧
      xiOut fiSample = (-fiSample.kt⁻¹) • ftForce fiSample) ∧
    (¬ fiSample.cp.mu * vnorm (fnForce fiSample) < vnorm (ftTrial fiSample) →
      ftForce fiSample = ftTrial fiSample ∧ xiOut fiSample = xiProj fiSample) :=
  coulomb_friction_cap fiSample (by norm_num [fiSample])

/-- C3: the applied normal force is non-attractive: its component along
the outward normal of each participant (`n` on A, `−n` on B, the force on
B being the negation) is never positive, and the force is clamped to zero
exactly when the unclamped scalar would pull. -/
theorem normal_force_no_pull (fi : ForceInputs) :
    vdot (fnForce fi) fi.n ≤ 0 ∧
    vdot (-fnForce fi) (-fi.n) ≤ 0 ∧
    ((0 < fnScalar fi ∧ fnForce fi = 0) ∨
     (fnScalar fi ≤ 0 ∧ fnForce fi = fnScalar fi • fi.n)) := by
  by_cases h : 0 < fnScalar fi
  · have hf : fnForce fi = 0 := by
      unfold fnForce
      rw [if_pos h]
    rw [hf]
    refine ⟨le_of_eq (vdot_zero_left _), ?_, Or.inl ⟨h, rfl⟩⟩
    rw [vdot_neg_neg]
    exact le_of_eq (vdot_zero_left _)
  · have hs : fnScalar fi ≤ 0 := le_of_not_lt h
    have hf : fnForce fi = fnScalar fi • fi.n := by
      unfold fnForce
      rw [if_neg h]
    rw [hf, vdot_neg_neg, vdot_smul_left]
    have hle : fnScalar fi * vdot fi.n fi.n ≤ 0 :=
      mul_nonpos_iff.mpr (Or.inr ⟨hs, vdot_self_nonneg _⟩)
    exact ⟨hle, hle, Or.inr ⟨hs, rfl⟩⟩

/-- C4: action and reaction.  The total contact force the model applies
to participant B is exactly the negation of the force applied to A, both
for the per-contact force pair and for the per-agent accumulation of an
agent-agent event. -/
theorem agent_agent_action_reaction (fi : ForceInputs) (ev : ContactEvent)
    (hw : ev.isWall = false) (hab : ev.idxA ≠ ev.idxB) :
    forceOnB fi = -forceOnA fi ∧
    contactForceOn [ev] ev.idxA = ev.fA ∧
    contactForceOn [ev] ev.idxB = -ev.fA := by
  refine ⟨?_, ?_, ?_⟩
  · unfold forceOnB forceOnA
    rw [neg_add]
  · have h2 : ¬(ev.isWall = false ∧ ev.idxB = ev.idxA) :=
      fun hc => hab hc.2.symm
    simp [contactForceOn, h2]
  · simp [contactForceOn, hab, hw]

/-- Witness for C4 at a concrete agent-agent event between agents 0
and 1. -/
theorem agent_agent_action_reaction_witness :
    forceOnB fiSample = -forceOnA fiSample ∧
    contactForceOn [evSample] evSample.idxA = evSample.fA ∧
    contactForceOn [evSample] evSample.idxB = -evSample.fA :=
  agent_agent_action_reaction fiSample evSample rfl
    (by norm_num [evSample])

/-! ## Theorems: integrator -/

/-- C1: one public call advances the state by exactly one coarse step,
performing `N = round(dt/dt_m)` sub-steps of size `dt_m`, the effectively
simulated span being `N · dt_m` (equal to `dt` exactly when `dt/dt_m` is
integral). -/
theorem coarse_step_substep_count (dt dtm : ℝ) (w : World)
    (h1 : 0 < dtm) (h2 : dtm ≤ dt) :
    1 ≤ numSubSteps dt dtm ∧
    (numSubSteps dt dtm : ℤ) = round (dt / dtm) ∧
    coarseStep dt dtm w = (substep dtm)^[numSubSteps dt dtm] w ∧
    effectiveDt dt dtm = (numSubSteps dt dtm : ℝ) * dtm ∧
    (∀ k : ℕ, dt = k * dtm → numSubSteps dt dtm = k ∧ effectiveDt dt dtm = dt) := by
  have hratio : (1 : ℝ) ≤ dt / dtm := (one_le_div h1).mpr h2
  have hround : (1 : ℤ) ≤ round (dt / dtm) := by
    rw [round_eq, Int.le_floor]
    push_cast
    linarith
  have htoNat : (numSubSteps dt dtm : ℤ) = round (dt / dtm) := by
    unfold numSubSteps
    exact Int.toNat_of_nonneg (le_trans zero_le_one hround)
  refine ⟨?_, htoNat, rfl, rfl, ?_⟩
  · have := htoNat
    omega
  · intro k hk
    have hdtm : dtm ≠ 0 := ne_of_gt h1
    have hq : dt / dtm = (k : ℝ) := by
      rw [hk]
      field_simp
    have hN : numSubSteps dt dtm = k := by
      unfold numSubSteps
      rw [hq, round_natCast]
      exact Int.toNat_natCast k
    refine ⟨hN, ?_⟩
    unfold effectiveDt
    rw [hN, hk]

/-- Witness for C1 with `dt = 1`, `dt_m = 1/2` on the concrete world. -/
theorem coarse_step_substep_count_witness :
    1 ≤ numSubSteps 1 (1 / 2) ∧
    (numSubSteps 1 (1 / 2) : ℤ) = round ((1 : ℝ) / (1 / 2)) ∧
    coarseStep 1 (1 / 2) worldSample =
      (substep (1 / 2))^[numSubSteps 1 (1 / 2)] worldSample ∧
    effectiveDt 1 (1 / 2) = (numSubSteps 1 (1 / 2) : ℝ) * (1 / 2) ∧
    (∀ k : ℕ, (1 : ℝ) = k * (1 / 2) →
      numSubSteps 1 (1 / 2) = k ∧ effectiveDt 1 (1 / 2) = 1) :=
  coarse_step_substep_count 1 (1 / 2) worldSample (by norm_num) (by norm_num)

/-! ## Theorems: iteration order and determinism -/

/-- Concatenating blocks indexed by an ascending range preserves
pairwise order when each block is ordered and blocks respect the index
order. -/
lemma pairwise_flatMap_range {α : Type} {R : α → α → Prop} (n : ℕ)
    (f : ℕ → List α) (hin : ∀ i, (f i).Pairwise R)
    (hcross : ∀ i j, i < j → ∀ x ∈ f i, ∀ y ∈ f j, R x y) :
    ((List.range n).flatMap f).Pairwise R := by
  have hdef : (List.range n).flatMap f = ((List.range n).map f).flatten := rfl
  rw [hdef, List.pairwise_flatten]
  constructor
  · intro l hl
    obtain ⟨i, _, rfl⟩ := List.mem_map.mp hl
    exact hin i
  · rw [List.pairwise_map]
    refine (List.pairwise_lt_range n).imp ?_
    intro i j hij
    exact fun x hx y hy => hcross i j hij x hx y hy

/-- The agent-agent candidate list is strictly increasing in the
lexicographic order on `(i, j, sA, sB)`. -/
lemma pairwise_quadLt_agentPairs (w : World) :
    (agentPairsCand w).Pairwise quadLt := by
  unfold agentPairsCand
  apply pairwise_flatMap_range
  · intro i
    apply pairwise_flatMap_range
    · intro j
      by_cases hij : i < j
      · rw [if_pos hij]
        apply pairwise_flatMap_range
        · intro sA
          rw [List.pairwise_map]
          refine (List.pairwise_lt_range _).imp ?_
          intro a b hab
          unfold quadLt
          simp
          omega
        · intro sA sA2 hlt x hx y hy
          simp only [List.mem_map, List.mem_range] at hx hy
          obtain ⟨sB, _, rfl⟩ := hx
          obtain ⟨sB2, _, rfl⟩ := hy
          unfold quadLt
          simp
          omega
      · rw [if_neg hij]
        exact List.Pairwise.nil
    · intro j j2 hjj x hx y hy
      have hx2 : x.1 = i ∧ x.2.1 = j := by
        by_cases hij : i < j
        · rw [if_pos hij] at hx
          simp only [List.mem_flatMap, List.mem_map, List.mem_range] at hx
          obtain ⟨sA, _, sB, _, rfl⟩ := hx
          exact ⟨rfl, rfl⟩
        · rw [if_neg hij] at hx
          simp at hx
      have hy2 : y.1 = i ∧ y.2.1 = j2 := by
        by_cases hij : i < j2
        · rw [if_pos hij] at hy
          simp only [List.mem_flatMap, List.mem_map, List.mem_range] at hy
          obtain ⟨sA, _, sB, _, rfl⟩ := hy
          exact ⟨rfl, rfl⟩
        · rw [if_neg hij] at hy
          simp at hy
      unfold quadLt
      omega
  · intro i i2 hii x hx y hy
    have hx1 : x.1 = i := by
      simp only [List.mem_flatMap, List.mem_range] at hx
      obtain ⟨j, _, hx⟩ := hx
      by_cases hij : i < j
      · rw [if_pos hij] at hx
        simp only [List.mem_flatMap, List.mem_map, List.mem_range] at hx
        obtain ⟨sA, _, sB, _, rfl⟩ := hx
        rfl
      · rw [if_neg hij] at hx
        simp at hx
    have hy1 : y.1 = i2 := by
      simp only [List.mem_flatMap, List.mem_range] at hy
      obtain ⟨j, _, hy⟩ := hy
      by_cases hij : i2 < j
      · rw [if_pos hij] at hy
        simp only [List.mem_flatMap, List.mem_map, List.mem_range] at hy
        obtain ⟨sA, _, sB, _, rfl⟩ := hy
        rfl
      · rw [if_neg hij] at hy
        simp at hy
    unfold quadLt
    omega

/-- The agent-wall candidate list is strictly increasing in the
lexicographic order on `(i, s, wallIdx, cornerIdx)`. -/
lemma pairwise_quadLt_wallCand (w : World) :
    (wallCand w).Pairwise quadLt := by
  unfold wallCand
  apply pairwise_flatMap_range
  · intro i
    apply pairwise_flatMap_range
    · intro s
      apply pairwise_flatMap_range
      · intro wi
        rw [List.pairwise_map]
        refine (List.pairwise_lt_range _).imp ?_
        intro a b hab
        unfold quadLt
        simp
        omega
      · intro wi wi2 hlt x hx y hy
        simp only [List.mem_map, List.mem_range] at hx hy
        obtain ⟨c, _, rfl⟩ := hx
        obtain ⟨c2, _, rfl⟩ := hy
        unfold quadLt
        simp
        omega
    · intro s s2 hlt x hx y hy
      simp only [List.mem_flatMap, List.mem_map, List.mem_range] at hx hy
      obtain ⟨wi, _, c, _, rfl⟩ := hx
      obtain ⟨wi2, _, c2, _, rfl⟩ := hy
      unfold quadLt
      simp
      omega
  · intro i i2 hlt x hx y hy
    simp only [List.mem_flatMap, List.mem_map, List.mem_range] at hx hy
    obtain ⟨s, _, wi, _, c, _, rfl⟩ := hx
    obtain ⟨s2, _, wi2, _, c2, _, rfl⟩ := hy
    unfold quadLt
    simp
    omega

/-- A sub-step leaves the sequence of agent ids unchanged. -/
lemma agents_map_id_substep (dtm : ℝ) (w : World) :
    (substep dtm w).agents.map (fun a => a.id) =
      w.agents.map (fun a => a.id) := by
  unfold substep
  apply List.ext_getElem?
  intro n
  simp only [List.getElem?_map, List.getElem?_mapIdx]
  cases w.agents[n]? with
  | none => rfl
  | some a => rfl

/-- Iterated sub-steps leave the sequence of agent ids unchanged. -/
lemma agents_map_id_iterate (dtm : ℝ) :
    ∀ (n : ℕ) (w : World),
      ((substep dtm)^[n] w).agents.map (fun a => a.id) =
        w.agents.map (fun a => a.id)
  | 0, _ => rfl
  | n + 1, w => by
      rw [Function.iterate_succ_apply,
        agents_map_id_iterate dtm n (substep dtm w), agents_map_id_substep]

/-- The loader leaves the agents sorted by ascending id. -/
lemma pairwise_id_loadAgents (l : List AgentPhys) :
    (loadAgents l).Pairwise (fun a b => a.id ≤ b.id) := by
  unfold loadAgents
  have h := @List.sorted_mergeSort AgentPhys
    (fun a b : AgentPhys => a.id ≤ b.id)
    (fun a b c hab hbc => by
      simp only [decide_eq_true_eq] at hab hbc ⊢
      omega)
    (fun a b => by
      simp only [Bool.or_eq_true, decide_eq_true_eq]
      omega) l
  refine h.imp ?_
  intro a b hab
  simpa using hab

/-- C9: determinism of the engine model.  Two runs on the same inputs
produce the same output; the world's agents are iterated in ascending id
order (the loader sorts them and every sub-step preserves the order), and
both candidate-contact lists are traversed in strictly ascending
lexicographic key order, which fixes the accumulation order of the force
sums. -/
theorem engine_deterministic (dt dtm : ℝ) (agents : List AgentPhys)
    (walls : List WallPhys) (reg : MatRegistry) (book0 : Book Vec2) :
    runModel dt dtm agents walls reg book0 =
      runModel dt dtm agents walls reg book0 ∧
    ((runModel dt dtm agents walls reg book0).agents.map
        (fun a => a.id)).Pairwise (· ≤ ·) ∧
    ∀ w : World, (agentPairsCand w).Pairwise quadLt ∧
      (wallCand w).Pairwise quadLt := by
  refine ⟨rfl, ?_, fun w => ⟨pairwise_quadLt_agentPairs w, pairwise_quadLt_wallCand w⟩⟩
  unfold runModel coarseStep
  rw [agents_map_id_iterate]
  rw [List.pairwise_map]
  exact pairwise_id_loadAgents agents

/-! ## Theorems: entry point validation and outputs -/

lemma ite_nil_iff {P : Prop} [Decidable P] (e : ConfigError) :
    (if P then ([] : List ConfigError) else [e]) = [] ↔ P := by
  split <;> simp_all

lemma ite_none_iff {P : Prop} [Decidable P] (e : ConfigError) :
    (if P then none else some e) = none ↔ P := by
  split <;> simp_all

/-- The validator reports nothing exactly on a well-formed config. -/
lemma validateConfig_eq_nil_iff (c : Config) :
    validateConfig c = [] ↔ goodConfig c := by
  unfold validateConfig goodConfig
  simp only [List.append_eq_nil, ite_nil_iff, List.filterMap_eq_nil_iff,
    List.flatMap_eq_nil_iff, ite_none_iff]
  tauto

/-- C7: the entry point returns 0 exactly when the input parses and
validation reports nothing; integration happens exactly on status 0; on a
validation failure the full error list is reported, integration never
starts and the status is non-zero; and the validator accepts exactly the
configs satisfying every documented check (no duplicate ids, five shapes,
walls with at least two corners, positive mass and inertia, every
material contact pair present). -/
theorem crowdMechanics_validation (input : Except LoadError Config) :
    ((crowdMechanicsRun input).status = 0 ↔
      ∃ cfg, input = Except.ok cfg ∧ validateConfig cfg = []) ∧
    ((crowdMechanicsRun input).integrated = true ↔
      (crowdMechanicsRun input).status = 0) ∧
    (∀ cfg, input = Except.ok cfg → validateConfig cfg ≠ [] →
      (crowdMechanicsRun input).status ≠ 0 ∧
      (crowdMechanicsRun input).integrated = false ∧
      (crowdMechanicsRun input).errors = validateConfig cfg) ∧
    (∀ cfg : Config, validateConfig cfg = [] ↔ goodConfig cfg) := by
  cases input with
  | error e =>
      refine ⟨?_, ?_, ?_, fun cfg => validateConfig_eq_nil_iff cfg⟩
      · simp [crowdMechanicsRun]
      · simp [crowdMechanicsRun]
      · intro cfg heq
        exact absurd heq (by simp)
  | ok cfg =>
      by_cases h : validateConfig cfg = []
      · have hie : (validateConfig cfg).isEmpty = true := by simp [h]
        refine ⟨?_, ?_, ?_, fun cfg2 => validateConfig_eq_nil_iff cfg2⟩
        · simp [crowdMechanicsRun, hie, h]
        · simp [crowdMechanicsRun, hie]
        · intro cfg2 heq hne
          rw [Except.ok.injEq] at heq
          subst heq
          exact absurd h hne
      · have hie : (validateConfig cfg).isEmpty = false := by
          simpa [List.isEmpty_iff] using h
        refine ⟨?_, ?_, ?_, fun cfg2 => validateConfig_eq_nil_iff cfg2⟩
        · simp [crowdMechanicsRun, hie, h]
        · simp [crowdMechanicsRun, hie]
        · intro cfg2 heq hne
          rw [Except.ok.injEq] at heq
          subst heq
          simp [crowdMechanicsRun, hie]

lemma map_asKey_interactionRecords {V : Type} :
    ∀ b : Book V, (interactionRecords b).map PairRecord.asKey =
      b.keys.filter isAgentAgentKey
  | [] => rfl
  | (ContactKey.agentAgent i j sA sB, e) :: rest => by
      have ih := map_asKey_interactionRecords rest
      simp only [Book.keys] at ih
      simp only [interactionRecords, List.map_cons, Book.keys,
        List.filter_cons]
      rw [if_pos (by rfl), ih]
      rfl
  | (ContactKey.agentWall i s w c, e) :: rest => by
      have ih := map_asKey_interactionRecords rest
      simp only [Book.keys] at ih
      simp only [interactionRecords, Book.keys, List.map_cons,
        List.filter_cons]
      rw [if_neg (by simp [isAgentAgentKey]), ih]

lemma asKey_mem_keys {V : Type} {b : Book V} {r : PairRecord V}
    (hr : r ∈ interactionRecords b) : r.asKey ∈ b.keys := by
  have h : r.asKey ∈ (interactionRecords b).map PairRecord.asKey :=
    List.mem_map_of_mem _ hr
  rw [map_asKey_interactionRecords] at h
  exact (List.mem_filter.mp h).1

/-- C8: the Agent Interactions output uses the fixed filename
`AgentInteractions.xml`; every emitted agent-agent record is parented at
the smaller agent id with a strictly greater child id; and every
agent-agent key of the final contact book appears exactly once among the
emitted records. -/
theorem interactions_output_spec {V : Type} (b : Book V)
    (hwf : ∀ k ∈ b.keys, k.wellFormed) (hnd : b.keys.Nodup) :
    (writeInteractions b).1 = "AgentInteractions.xml" ∧
    (∀ r ∈ (writeInteractions b).2, r.parent < r.child) ∧
    (∀ i j sA sB, ContactKey.agentAgent i j sA sB ∈ b.keys →
      ((writeInteractions b).2.map PairRecord.asKey).count
        (ContactKey.agentAgent i j sA sB) = 1) := by
  refine ⟨rfl, ?_, ?_⟩
  · intro r hr
    have hk := asKey_mem_keys (b := b) hr
    have hw := hwf _ hk
    simpa [PairRecord.asKey, ContactKey.wellFormed] using hw
  · intro i j sA sB hmem
    have h2 : (writeInteractions b).2 = interactionRecords b := rfl
    rw [h2, map_asKey_interactionRecords]
    rw [List.count_filter rfl]
    exact List.count_eq_one_of_mem hnd hmem

/-- Witness for C8 at a concrete two-record book. -/
theorem interactions_output_spec_witness :
    (writeInteractions bookSampleQ).1 = "AgentInteractions.xml" ∧
    (∀ r ∈ (writeInteractions bookSampleQ).2, r.parent < r.child) ∧
    (∀ i j sA sB, ContactKey.agentAgent i j sA sB ∈ bookSampleQ.keys →
      ((writeInteractions bookSampleQ).2.map PairRecord.asKey).count
        (ContactKey.agentAgent i j sA sB) = 1) :=
  interactions_output_spec bookSampleQ (by decide) (by decide)

end CrowdMech
